import Mathlib

set_option maxHeartbeats 1000000

/-!
Shallow embedding of the firmware core in `src/main.rs` of `dwerner/keyboard`:
the key-position-to-usage mapping (`keys::KeyMapping`), the two constant key
tables (`RIGHT_KEYS`, `LEFT_KEYS`), the matrix-scan loop that fills the
36-slot `keys_pressed` snapshot, and the per-iteration control flow of
`iterate_lines` (write_report / tick / poll / read_report with their
error-match arms).

Rust `usize` indexing that can panic (array indexing out of bounds, `5 - column`
underflow) is embedded fallibly: an operation that would panic returns `none`.
A Rust `panic!` in the main loop (the fatal-error arms) is embedded as the
iteration outcome `halted = true`; the `#[panic_handler]` is `loop {}`, i.e. a
terminal halt.
-/

/-- The subset of the `usbd_human_interface_device::page::Keyboard` usage
enumeration that appears in the source, plus the `NoEventIndicated` sentinel. -/
inductive Keyboard where
  | NoEventIndicated
  | Keyboard0 | Keyboard1 | Keyboard2 | Keyboard3 | Keyboard4
  | Keyboard5 | Keyboard6 | Keyboard7 | Keyboard8 | Keyboard9
  | Minus | Equal | Backslash | Semicolon | Apostrophe
  | Comma | Dot | ForwardSlash | Grave | Tab | Space
  | ReturnEnter | UpArrow | DownArrow | LeftArrow | RightArrow
  | LeftBrace | RightBrace | DeleteBackspace | DeleteForward
  | LeftShift | RightShift | LeftControl | RightControl | LeftAlt
  | F2 | End | Escape
  | A | B | C | D | E | F | G | H | I | J | K | L | M
  | N | O | P | Q | R | S | T | U | V | W | X | Y | Z
deriving DecidableEq, Repr

/-- A `[[Keyboard; 6]; 6]` table, embedded as a list of rows. -/
abbrev Table := List (List Keyboard)

/-- Bounds-checked double indexing `m[line][column]`: `none` exactly when the
Rust indexing would panic. -/
def tableGet? (m : Table) (line column : Nat) : Option Keyboard :=
  (m.get? line).bind fun row => row.get? column

/-- `usize` subtraction `a - b`: `none` when it would underflow (panic). -/
def usizeSub (a b : Nat) : Option Nat :=
  if b ≤ a then some (a - b) else none

/-- Total double indexing used only to *state* results about in-range slots;
out of range it yields the sentinel. -/
def tableEntry (m : Table) (line column : Nat) : Keyboard :=
  (m.getD line []).getD column Keyboard.NoEventIndicated

namespace keys

/-- `keys::KeyMapping`: a table tagged with an orientation. -/
inductive KeyMapping where
  | Left (m : Table)
  | Right (m : Table)
  | Other

/-- `KeyMapping::mapping(&self, line, column)`.
`Left` inverts the column index (`mapping[line][5 - column]`) because the left
half was wired in reverse; `Right` indexes directly; `Other` yields
`NoEventIndicated`. -/
def KeyMapping.mapping : KeyMapping → Nat → Nat → Option Keyboard
  | .Left m, line, column => (usizeSub 5 column).bind fun c => tableGet? m line c
  | .Right m, line, column => tableGet? m line column
  | .Other, _, _ => some Keyboard.NoEventIndicated

open Keyboard in
/-- The table wrapped by `RIGHT_KEYS`. -/
def RIGHT_TABLE : Table :=
  [[Keyboard6, Keyboard7, Keyboard8, Keyboard9, Keyboard0, Minus],
   [Y, U, I, O, P, Backslash],
   [H, J, K, L, Semicolon, Apostrophe],
   [N, M, Comma, Dot, ForwardSlash, RightShift],
   [ReturnEnter, Space, UpArrow, DownArrow, NoEventIndicated, NoEventIndicated],
   [F2, RightControl, LeftBrace, RightBrace, NoEventIndicated, NoEventIndicated]]

/-- `keys::RIGHT_KEYS`. -/
def RIGHT_KEYS : KeyMapping := KeyMapping.Right RIGHT_TABLE

open Keyboard in
/-- The table wrapped by `LEFT_KEYS`. -/
def LEFT_TABLE : Table :=
  [[Equal, Keyboard1, Keyboard2, Keyboard3, Keyboard4, Keyboard5],
   [Tab, Q, W, E, R, T],
   [Grave, A, S, D, F, G],
   [LeftShift, Z, X, C, V, B],
   [NoEventIndicated, NoEventIndicated, LeftArrow, RightArrow, DeleteBackspace, LeftControl],
   [NoEventIndicated, NoEventIndicated, DeleteForward, End, Escape, LeftAlt]]

/-- `keys::LEFT_KEYS`. -/
def LEFT_KEYS : KeyMapping := KeyMapping.Left LEFT_TABLE

end keys

/-! ## The matrix scan (body of the `for (line_index, line) in lines …` loop)

The physical matrix is an environment function `matrix line col : Bool`:
`col.is_low()` sampled while line `line` is driven low, i.e. whether the key
at `(line, col)` is closed. Pin reads/writes are `Infallible` in the source
and are embedded as pure.
-/

/-- Bounds-checked `keys_pressed[i] = v`: `none` exactly when the Rust slot
assignment would panic. -/
def setChecked (l : List Keyboard) (i : Nat) (v : Keyboard) : Option (List Keyboard) :=
  if i < l.length then some (l.set i v) else none

/-- The inner `for (col_index, col) in cols …` loop for one asserted line:
for each column, sample it; if low, resolve through `RIGHT_KEYS.mapping`,
else take `NoEventIndicated`; store at slot `(col_index * 6) + line_index`. -/
def scanCols (matrix : Nat → Nat → Bool) (line : Nat) :
    List Nat → List Keyboard → Option (List Keyboard)
  | [], pressed => some pressed
  | c :: cs, pressed =>
    (if matrix line c then keys.RIGHT_KEYS.mapping line c
     else some Keyboard.NoEventIndicated).bind fun key =>
      (setChecked pressed (c * 6 + line) key).bind fun pressed' =>
        scanCols matrix line cs pressed'

/-- The outer `for (line_index, line) in lines …` loop: each line is asserted,
settled, its six columns sampled, then deasserted. -/
def scanLines (matrix : Nat → Nat → Bool) :
    List Nat → List Keyboard → Option (List Keyboard)
  | [], pressed => some pressed
  | l :: ls, pressed =>
    (scanCols matrix l (List.range 6) pressed).bind fun pressed' =>
      scanLines matrix ls pressed'

/-- One full sweep: start from
`[Keyboard::NoEventIndicated; 6 * 6]` and process lines `0..6`, columns `0..6`. -/
def scan (matrix : Nat → Nat → Bool) : Option (List Keyboard) :=
  scanLines matrix (List.range 6) (List.replicate 36 Keyboard.NoEventIndicated)

/-! ## Characterization of the scan

`snapshot` is the pure value of a sweep; `scan_eq_snapshot` proves the
embedded loop always completes (no panic branch is reachable) and computes it.
-/

/-- The value stored for column `c` while line `line` is asserted. -/
def colVal (matrix : Nat → Nat → Bool) (line c : Nat) : Keyboard :=
  if matrix line c then tableEntry keys.RIGHT_TABLE line c
  else Keyboard.NoEventIndicated

/-- Pure form of `scanCols`: fold the slot writes of one line. -/
def writeCols (matrix : Nat → Nat → Bool) (line : Nat) :
    List Nat → List Keyboard → List Keyboard
  | [], pressed => pressed
  | c :: cs, pressed =>
    writeCols matrix line cs (pressed.set (c * 6 + line) (colVal matrix line c))

/-- Pure form of `scanLines`. -/
def writeLines (matrix : Nat → Nat → Bool) :
    List Nat → List Keyboard → List Keyboard
  | [], pressed => pressed
  | l :: ls, pressed =>
    writeLines matrix ls (writeCols matrix l (List.range 6) pressed)

/-- Pure value of one full sweep. -/
def snapshot (matrix : Nat → Nat → Bool) : List Keyboard :=
  writeLines matrix (List.range 6) (List.replicate 36 Keyboard.NoEventIndicated)

theorem right_mapping_some : ∀ l, l < 6 → ∀ c, c < 6 →
    keys.RIGHT_KEYS.mapping l c = some (tableEntry keys.RIGHT_TABLE l c) := by
  decide

theorem length_writeCols (matrix : Nat → Nat → Bool) (line : Nat) :
    ∀ (cs : List Nat) (p : List Keyboard),
      (writeCols matrix line cs p).length = p.length := by
  intro cs
  induction cs with
  | nil => intro p; rfl
  | cons c cs ih => intro p; rw [writeCols, ih, List.length_set]

theorem length_writeLines (matrix : Nat → Nat → Bool) :
    ∀ (ls : List Nat) (p : List Keyboard),
      (writeLines matrix ls p).length = p.length := by
  intro ls
  induction ls with
  | nil => intro p; rfl
  | cons l ls ih => intro p; rw [writeLines, ih, length_writeCols]

theorem scanCols_eq (matrix : Nat → Nat → Bool) (line : Nat) (hl : line < 6) :
    ∀ (cs : List Nat), (∀ c ∈ cs, c < 6) → ∀ (p : List Keyboard), p.length = 36 →
      scanCols matrix line cs p = some (writeCols matrix line cs p) := by
  intro cs
  induction cs with
  | nil => intro _ p _; rfl
  | cons c cs ih =>
    intro hcs p hp
    have hc : c < 6 := hcs c (List.mem_cons_self c cs)
    have hidx : c * 6 + line < p.length := by omega
    have hkey : (if matrix line c then keys.RIGHT_KEYS.mapping line c
        else some Keyboard.NoEventIndicated) = some (colVal matrix line c) := by
      cases hmc : matrix line c <;>
        simp [hmc, colVal, right_mapping_some line hl c hc]
    rw [scanCols, hkey, Option.some_bind, setChecked, if_pos hidx, Option.some_bind,
      writeCols]
    exact ih (fun x hx => hcs x (List.mem_cons_of_mem c hx)) _ (by rw [List.length_set, hp])

theorem scanLines_eq (matrix : Nat → Nat → Bool) :
    ∀ (ls : List Nat), (∀ l ∈ ls, l < 6) → ∀ (p : List Keyboard), p.length = 36 →
      scanLines matrix ls p = some (writeLines matrix ls p) := by
  intro ls
  induction ls with
  | nil => intro _ p _; rfl
  | cons l ls ih =>
    intro hls p hp
    have hl : l < 6 := hls l (List.mem_cons_self l ls)
    rw [scanLines,
      scanCols_eq matrix l hl (List.range 6) (fun c hc => List.mem_range.mp hc) p hp,
      Option.some_bind, writeLines]
    exact ih (fun x hx => hls x (List.mem_cons_of_mem l hx)) _
      (by rw [length_writeCols, hp])

/-- The sweep never hits a panic branch, and its value is `snapshot`. -/
theorem scan_eq_snapshot (matrix : Nat → Nat → Bool) :
    scan matrix = some (snapshot matrix) := by
  rw [scan, snapshot]
  exact scanLines_eq matrix (List.range 6) (fun l hl => List.mem_range.mp hl) _
    (List.length_replicate 36 _)

theorem snapshot_length (matrix : Nat → Nat → Bool) :
    (snapshot matrix).length = 36 := by
  rw [snapshot, length_writeLines, List.length_replicate]

theorem writeCols_get_ne (matrix : Nat → Nat → Bool) (line s : Nat) :
    ∀ (cs : List Nat), (∀ c ∈ cs, c * 6 + line ≠ s) → ∀ (p : List Keyboard),
      (writeCols matrix line cs p)[s]? = p[s]? := by
  intro cs
  induction cs with
  | nil => intro _ p; rfl
  | cons c cs ih =>
    intro hcs p
    rw [writeCols, ih (fun x hx => hcs x (List.mem_cons_of_mem c hx)),
      List.getElem?_set_ne (hcs c (List.mem_cons_self c cs))]

theorem writeCols_get_eq (matrix : Nat → Nat → Bool) (line c : Nat)
    (hl : line < 6) (hc : c < 6) :
    ∀ (cs : List Nat), cs.Nodup → c ∈ cs → ∀ (p : List Keyboard), p.length = 36 →
      (writeCols matrix line cs p)[c * 6 + line]? = some (colVal matrix line c) := by
  intro cs
  induction cs with
  | nil => intro _ hmem; exact absurd hmem (List.not_mem_nil c)
  | cons c' cs ih =>
    intro hnd hmem p hp
    rcases List.mem_cons.mp hmem with heq | hmem'
    · subst heq
      rw [writeCols, writeCols_get_ne]
      · exact List.getElem?_set_eq_of_lt _ (by omega)
      · intro x hx hxs
        have hxc : x ≠ c := fun h => (List.nodup_cons.mp hnd).1 (h ▸ hx)
        omega
    · have hcc : c ≠ c' := by
        intro h
        exact (List.nodup_cons.mp hnd).1 (h ▸ hmem')
      rw [writeCols]
      exact ih (List.nodup_cons.mp hnd).2 hmem' _ (by rw [List.length_set, hp])

theorem writeLines_get (matrix : Nat → Nat → Bool) (line c : Nat)
    (hl : line < 6) (hc : c < 6) :
    ∀ (ls : List Nat), (∀ l ∈ ls, l < 6) → ∀ (p : List Keyboard), p.length = 36 →
      (writeLines matrix ls p)[c * 6 + line]? =
        if line ∈ ls then some (colVal matrix line c) else p[c * 6 + line]? := by
  intro ls
  induction ls with
  | nil => intro _ p _; simp [writeLines]
  | cons l ls ih =>
    intro hls p hp
    have hl6 : l < 6 := hls l (List.mem_cons_self l ls)
    have hp' : (writeCols matrix l (List.range 6) p).length = 36 := by
      rw [length_writeCols, hp]
    rw [writeLines, ih (fun x hx => hls x (List.mem_cons_of_mem l hx)) _ hp']
    by_cases hmem : line ∈ ls
    · simp [hmem, List.mem_cons]
    · by_cases hline : l = line
      · subst hline
        simp only [hmem, if_false, List.mem_cons, true_or, if_true]
        exact writeCols_get_eq matrix l c hl hc (List.range 6) (List.nodup_range 6)
          (List.mem_range.mpr hc) p hp
      · have hne : line ≠ l := fun h => hline h.symm
        have hiff : (line ∈ l :: ls) = False := by
          simp [List.mem_cons, hmem, hne]
        simp only [hmem, if_false, hiff, if_false]
        refine writeCols_get_ne matrix l _ (List.range 6) ?_ p
        intro x hx
        have hx6 : x < 6 := List.mem_range.mp hx
        omega

/-- Slot `(c * 6 + line)` of a sweep holds exactly the sampled value of
`(line, c)` resolved through `RIGHT_KEYS`. -/
theorem snapshot_get (matrix : Nat → Nat → Bool) (line c : Nat)
    (hl : line < 6) (hc : c < 6) :
    (snapshot matrix)[c * 6 + line]? = some (colVal matrix line c) := by
  rw [snapshot, writeLines_get matrix line c hl hc (List.range 6)
    (fun l h => List.mem_range.mp h) _ (List.length_replicate 36 _),
    if_pos (List.mem_range.mpr hl)]

theorem snapshot_all_open (matrix : Nat → Nat → Bool)
    (h : ∀ l c, matrix l c = false) :
    snapshot matrix = List.replicate 36 Keyboard.NoEventIndicated := by
  apply List.ext_getElem?
  intro n
  by_cases hn : n < 36
  · have hl : n % 6 < 6 := Nat.mod_lt _ (by omega)
    have hc : n / 6 < 6 := by omega
    have hdecomp : n = (n / 6) * 6 + n % 6 := by omega
    conv_lhs => rw [hdecomp]
    rw [snapshot_get matrix (n % 6) (n / 6) hl hc, List.getElem?_replicate,
      if_pos hn]
    simp [colVal, h]
  · rw [List.getElem?_eq_none (by rw [snapshot_length]; omega),
      List.getElem?_eq_none (by rw [List.length_replicate]; omega)]

/-! ## The per-iteration control flow of `iterate_lines`

The HID transport is an external collaborator; its per-iteration outcomes are
an environment. `usb_device::UsbError` and
`usbd_human_interface_device::UsbHidError` are embedded with their actual
constructors; the inbound LED report payload is abstracted as a `Nat`.

An iteration is summarized as the list of externally visible events it
performs, in order, together with whether it ended in the `panic!`-halt.
-/

/-- `usb_device::UsbError`. -/
inductive UsbError where
  | WouldBlock | ParseError | BufferOverflow | EndpointOverflow
  | EndpointMemoryOverflow | InvalidEndpoint | Unsupported | InvalidState
deriving DecidableEq, Repr

/-- `usbd_human_interface_device::UsbHidError`. -/
inductive UsbHidError where
  | WouldBlock | Duplicate | UsbErrorRelay (e : UsbError) | SerializationError
deriving DecidableEq, Repr

/-- The externally visible operations of one loop iteration, in order. -/
inductive Event where
  | assertLine (l : Nat)
  | waitTick
  | sampleColumn (l c : Nat) (low : Bool)
  | deassertLine (l : Nat)
  | waitInput
  | writeReport (report : List Keyboard)
  | tickCall
  | pollEv (activity : Bool)
  | readOk (payload : Nat)
  | readErrLog (e : UsbError)
  | haltEv
deriving DecidableEq, Repr

/-- Environment of one iteration: the physical matrix and the outcomes the
USB transport returns for this cycle. -/
structure Env where
  matrix : Nat → Nat → Bool
  writeResult : Except UsbHidError Unit
  tickResult : Except UsbHidError Unit
  pollResult : Bool
  readResult : Except UsbError Nat

/-- The events of the scan sweep: per line, assert it, wait out the settle
tick, sample the six columns, deassert it. -/
def scanTrace (matrix : Nat → Nat → Bool) : List Event :=
  (List.range 6).flatMap fun l =>
    [Event.assertLine l, Event.waitTick] ++
    ((List.range 6).map fun c => Event.sampleColumn l c (matrix l c)) ++
    [Event.deassertLine l]

/-- `if usb_dev.poll(..) { match keyboard.interface().read_report() { .. } }`:
a successful read and a non-would-block error are logged; nothing halts. -/
def pollSection (env : Env) (pre : List Event) : List Event × Bool :=
  if env.pollResult then
    match env.readResult with
    | Except.ok payload => (pre ++ [Event.pollEv true, Event.readOk payload], false)
    | Except.error UsbError.WouldBlock => (pre ++ [Event.pollEv true], false)
    | Except.error err => (pre ++ [Event.pollEv true, Event.readErrLog err], false)
  else (pre ++ [Event.pollEv false], false)

/-- `nb::block!(tick_timer.wait()); match keyboard.interface().tick() { .. }`:
`Ok` and `WouldBlock` are absorbed, anything else panics. -/
def tickSection (env : Env) (pre : List Event) : List Event × Bool :=
  match env.tickResult with
  | Except.ok _ => pollSection env (pre ++ [Event.waitTick, Event.tickCall])
  | Except.error UsbHidError.WouldBlock =>
    pollSection env (pre ++ [Event.waitTick, Event.tickCall])
  | Except.error _ => (pre ++ [Event.waitTick, Event.tickCall, Event.haltEv], true)

/-- One iteration of the `loop { .. }` in `iterate_lines`: scan the matrix
into a fresh 36-slot snapshot, wait out the input timer, submit the report
(`WouldBlock`/`Duplicate`/`Ok` absorbed, anything else panics), then the tick
section, then the poll section. -/
def iteration (env : Env) : List Event × Bool :=
  match scan env.matrix with
  | none => (scanTrace env.matrix ++ [Event.haltEv], true)
  | some pressed =>
    match env.writeResult with
    | Except.error UsbHidError.WouldBlock =>
      tickSection env
        (scanTrace env.matrix ++ [Event.waitInput, Event.writeReport pressed])
    | Except.error UsbHidError.Duplicate =>
      tickSection env
        (scanTrace env.matrix ++ [Event.waitInput, Event.writeReport pressed])
    | Except.ok _ =>
      tickSection env
        (scanTrace env.matrix ++ [Event.waitInput, Event.writeReport pressed])
    | Except.error _ =>
      (scanTrace env.matrix ++
        [Event.waitInput, Event.writeReport pressed, Event.haltEv], true)

/-- Successive iterations of the loop; the trace stops after a halted
iteration (the `panic_handler` spins forever). -/
def runTrace : List Env → List (List Event × Bool)
  | [] => []
  | env :: rest =>
    let step := iteration env
    step :: (if step.2 then [] else runTrace rest)

theorem pollSection_halted (env : Env) (pre : List Event) :
    (pollSection env pre).2 = false := by
  rw [pollSection]
  split
  · split <;> rfl
  · rfl

theorem tickSection_halted (env : Env) (pre : List Event) :
    (tickSection env pre).2 = true ↔
      ∃ e, env.tickResult = Except.error e ∧ e ≠ UsbHidError.WouldBlock := by
  rw [tickSection]
  cases ht : env.tickResult with
  | ok u => simp [pollSection_halted]
  | error e => cases e <;> simp [pollSection_halted]

theorem mem_pollSection (env : Env) (pre : List Event) (x : Event)
    (hx : x ∈ pre) : x ∈ (pollSection env pre).1 := by
  rw [pollSection]
  split
  · split <;> simp [List.mem_append, hx]
  · simp [List.mem_append, hx]

theorem mem_tickSection (env : Env) (pre : List Event) (x : Event)
    (hx : x ∈ pre) : x ∈ (tickSection env pre).1 := by
  rw [tickSection]
  split
  · exact mem_pollSection env _ x (by simp [List.mem_append, hx])
  · exact mem_pollSection env _ x (by simp [List.mem_append, hx])
  · simp [List.mem_append, hx]

theorem writeReport_mem_iteration (env : Env) :
    Event.writeReport (snapshot env.matrix) ∈ (iteration env).1 := by
  rw [iteration.eq_def]
  simp only [scan_eq_snapshot]
  have hpre : Event.writeReport (snapshot env.matrix) ∈
      scanTrace env.matrix ++
        [Event.waitInput, Event.writeReport (snapshot env.matrix)] := by
    simp [List.mem_append]
  cases hw : env.writeResult with
  | ok u => exact mem_tickSection env _ _ hpre
  | error e =>
    cases e <;>
      first
        | exact mem_tickSection env _ _ hpre
        | simp [List.mem_append]

theorem runTrace_mem :
    ∀ (envs : List Env) (p : List Event × Bool),
      p ∈ runTrace envs → ∃ env ∈ envs, p = iteration env := by
  intro envs
  induction envs with
  | nil => intro p hp; exact absurd hp (List.not_mem_nil p)
  | cons env rest ih =>
    intro p hp
    rw [runTrace] at hp
    rcases List.mem_cons.mp hp with heq | hmem
    · exact ⟨env, List.mem_cons_self env rest, heq⟩
    · by_cases hh : (iteration env).2
      · simp [hh] at hmem
      · simp only [hh, if_neg, Bool.false_eq_true, if_false] at hmem
        obtain ⟨env', henv', hp'⟩ := ih p hmem
        exact ⟨env', List.mem_cons_of_mem env henv', hp'⟩

theorem left_mapping_some : ∀ l, l < 6 → ∀ c, c < 6 →
    keys.LEFT_KEYS.mapping l c = some (tableEntry keys.LEFT_TABLE l (5 - c)) := by
  decide

/-! ## The claims -/

/-- C1: for every line and column in `[0,6)`, resolving through a mapping in
the mirrored (`Left`) orientation returns the table entry at the inverted
column index `5 - column`. -/
theorem mirrored_mapping_inverts_column (m : Table) (line column : Nat)
    (hl : line < 6) (hc : column < 6) :
    (keys.KeyMapping.Left m).mapping line column =
      tableGet? m line (5 - column) := by
  rw [keys.KeyMapping.mapping, usizeSub, if_pos (show column ≤ 5 by omega),
    Option.some_bind]

theorem mirrored_mapping_inverts_column_witness :
    (keys.KeyMapping.Left keys.LEFT_TABLE).mapping 2 1 =
      tableGet? keys.LEFT_TABLE 2 (5 - 1) :=
  mirrored_mapping_inverts_column keys.LEFT_TABLE 2 1 (by decide) (by decide)

/-- C5: for every line and column in `[0,6)`, resolving through a mapping in
the `Other` ("none") orientation returns the `NoEventIndicated` sentinel. -/
theorem none_mapping_no_event (line column : Nat)
    (hl : line < 6) (hc : column < 6) :
    keys.KeyMapping.Other.mapping line column =
      some Keyboard.NoEventIndicated := rfl

theorem none_mapping_no_event_witness :
    keys.KeyMapping.Other.mapping 3 5 = some Keyboard.NoEventIndicated :=
  none_mapping_no_event 3 5 (by decide) (by decide)

/-- C6: for every line and column in `[0,6)`, resolving through a mapping in
the primary (`Right`) orientation returns the table entry at the direct
index. -/
theorem primary_mapping_direct_index (m : Table) (line column : Nat)
    (hl : line < 6) (hc : column < 6) :
    (keys.KeyMapping.Right m).mapping line column = tableGet? m line column :=
  rfl

theorem primary_mapping_direct_index_witness :
    (keys.KeyMapping.Right keys.RIGHT_TABLE).mapping 1 3 =
      tableGet? keys.RIGHT_TABLE 1 3 :=
  primary_mapping_direct_index keys.RIGHT_TABLE 1 3 (by decide) (by decide)

/-- C2: closing only the key at `(line=2, column=4)` during one sweep puts the
mapped usage (`Semicolon`, i.e. `RIGHT_KEYS.mapping 2 4`) at snapshot slot
`4*6+2 = 26` and `NoEventIndicated` at every other of the 36 slots; in
general a pressed `(l, c)` is recorded at slot `c*6+l`. -/
theorem single_key_snapshot_slot :
    (∃ pressed,
      scan (fun l c => decide (l = 2) && decide (c = 4)) = some pressed ∧
      pressed[26]? = some Keyboard.Semicolon ∧
      pressed[26]? = keys.RIGHT_KEYS.mapping 2 4 ∧
      ∀ i, i < 36 → i ≠ 26 → pressed[i]? = some Keyboard.NoEventIndicated) ∧
    ∀ (matrix : Nat → Nat → Bool) (l c : Nat), l < 6 → c < 6 →
      matrix l c = true →
      ∃ pressed, scan matrix = some pressed ∧
        pressed[c * 6 + l]? = keys.RIGHT_KEYS.mapping l c := by
  constructor
  · refine ⟨(List.replicate 36 Keyboard.NoEventIndicated).set 26
      Keyboard.Semicolon, by decide, by decide, by decide, by decide⟩
  · intro matrix l c hl hc hpress
    refine ⟨snapshot matrix, scan_eq_snapshot matrix, ?_⟩
    rw [snapshot_get matrix l c hl hc, right_mapping_some l hl c hc]
    simp [colVal, hpress]

/-- A fixed environment used by the witnesses: all keys open, transport all
quiet. -/
def env0 : Env :=
  { matrix := fun _ _ => false
    writeResult := Except.ok ()
    tickResult := Except.ok ()
    pollResult := false
    readResult := Except.error UsbError.WouldBlock }

/-- C8: scanning an all-open matrix yields the all-`NoEventIndicated`
snapshot, and on every iteration of the loop (however many sweeps ran
before), the report submitted is that all-clear snapshot. -/
theorem all_open_scan_idempotent (envs : List Env)
    (h : ∀ env ∈ envs, ∀ l c, env.matrix l c = false) :
    (∀ (matrix : Nat → Nat → Bool), (∀ l c, matrix l c = false) →
      scan matrix = some (List.replicate 36 Keyboard.NoEventIndicated)) ∧
    ∀ p ∈ runTrace envs,
      Event.writeReport (List.replicate 36 Keyboard.NoEventIndicated) ∈ p.1 := by
  constructor
  · intro matrix hm
    rw [scan_eq_snapshot, snapshot_all_open matrix hm]
  · intro p hp
    obtain ⟨env, henv, hpe⟩ := runTrace_mem envs p hp
    have hmem := writeReport_mem_iteration env
    rw [snapshot_all_open env.matrix (h env henv)] at hmem
    rw [hpe]
    exact hmem

theorem all_open_scan_idempotent_witness :
    (∀ (matrix : Nat → Nat → Bool), (∀ l c, matrix l c = false) →
      scan matrix = some (List.replicate 36 Keyboard.NoEventIndicated)) ∧
    ∀ p ∈ runTrace [env0],
      Event.writeReport (List.replicate 36 Keyboard.NoEventIndicated) ∈ p.1 :=
  all_open_scan_idempotent [env0] (by
    intro env henv l c
    rw [List.mem_singleton] at henv
    rw [henv]
    rfl)

/-- C9: with line and column in `[0,6)` no panic branch is reachable: the
mirrored `5 - column` never underflows, both table lookups are in bounds, the
snapshot index `c*6+l` is below 36, and a whole sweep (which performs those
very slot writes) never fails, for any matrix state. -/
theorem mapping_and_scan_in_bounds (l c : Nat) (hl : l < 6) (hc : c < 6)
    (matrix : Nat → Nat → Bool) :
    (usizeSub 5 c).isSome ∧
    (keys.LEFT_KEYS.mapping l c).isSome ∧
    (keys.RIGHT_KEYS.mapping l c).isSome ∧
    c * 6 + l < 36 ∧
    (scan matrix).isSome := by
  refine ⟨?_, ?_, ?_, by omega, ?_⟩
  · rw [usizeSub, if_pos (show c ≤ 5 by omega)]; rfl
  · rw [left_mapping_some l hl c hc]; rfl
  · rw [right_mapping_some l hl c hc]; rfl
  · rw [scan_eq_snapshot]; rfl

theorem mapping_and_scan_in_bounds_witness :
    (usizeSub 5 4).isSome ∧
    (keys.LEFT_KEYS.mapping 2 4).isSome ∧
    (keys.RIGHT_KEYS.mapping 2 4).isSome ∧
    4 * 6 + 2 < 36 ∧
    (scan (fun _ _ => false)).isSome :=
  mapping_and_scan_in_bounds 2 4 (by decide) (by decide) (fun _ _ => false)

/-- C10: the scan loop resolves every pressed key through `RIGHT_KEYS`, the
primary-orientation mapping, so the recorded usage at slot `c*6+l` is the
right-hand table entry at the direct index `[l][c]`. -/
theorem loop_uses_right_mapping (matrix : Nat → Nat → Bool) (l c : Nat)
    (hl : l < 6) (hc : c < 6) (hpress : matrix l c = true) :
    ∃ pressed, scan matrix = some pressed ∧
      pressed[c * 6 + l]? = some (tableEntry keys.RIGHT_TABLE l c) ∧
      keys.RIGHT_KEYS.mapping l c = some (tableEntry keys.RIGHT_TABLE l c) := by
  refine ⟨snapshot matrix, scan_eq_snapshot matrix, ?_,
    right_mapping_some l hl c hc⟩
  rw [snapshot_get matrix l c hl hc]
  simp [colVal, hpress]

theorem loop_uses_right_mapping_witness :
    ∃ pressed,
      scan (fun l c => decide (l = 0) && decide (c = 0)) = some pressed ∧
      pressed[0 * 6 + 0]? = some (tableEntry keys.RIGHT_TABLE 0 0) ∧
      keys.RIGHT_KEYS.mapping 0 0 = some (tableEntry keys.RIGHT_TABLE 0 0) :=
  loop_uses_right_mapping (fun l c => decide (l = 0) && decide (c = 0)) 0 0
    (by decide) (by decide) (by decide)

theorem pollSection_shape (env : Env) (pre : List Event) :
    ∃ seg, (pollSection env pre).1 = pre ++ seg ∧
      (seg = [Event.pollEv false] ∨ ∃ tail, seg = Event.pollEv true :: tail) := by
  rw [pollSection]
  cases hp : env.pollResult
  · exact ⟨[Event.pollEv false], by simp, Or.inl rfl⟩
  · cases hr : env.readResult with
    | ok payload =>
      exact ⟨[Event.pollEv true, Event.readOk payload], by simp,
        Or.inr ⟨_, rfl⟩⟩
    | error e =>
      by_cases he : e = UsbError.WouldBlock
      · subst he
        exact ⟨[Event.pollEv true], by simp, Or.inr ⟨[], rfl⟩⟩
      · refine ⟨[Event.pollEv true, Event.readErrLog e], ?_, Or.inr ⟨_, rfl⟩⟩
        cases e <;> simp_all

theorem tickSection_shape (env : Env) (pre : List Event) :
    ∃ rest2, (tickSection env pre).1 =
        pre ++ [Event.waitTick, Event.tickCall] ++ rest2 ∧
      (rest2 = [Event.haltEv] ∨ rest2 = [Event.pollEv false] ∨
        ∃ tail, rest2 = Event.pollEv true :: tail) := by
  rw [tickSection]
  cases ht : env.tickResult with
  | ok u =>
    obtain ⟨seg, hseg, hcase⟩ :=
      pollSection_shape env (pre ++ [Event.waitTick, Event.tickCall])
    exact ⟨seg, hseg,
      hcase.elim (fun h => Or.inr (Or.inl h)) (fun h => Or.inr (Or.inr h))⟩
  | error e =>
    cases e with
    | WouldBlock =>
      obtain ⟨seg, hseg, hcase⟩ :=
        pollSection_shape env (pre ++ [Event.waitTick, Event.tickCall])
      exact ⟨seg, hseg,
        hcase.elim (fun h => Or.inr (Or.inl h)) (fun h => Or.inr (Or.inr h))⟩
    | Duplicate => exact ⟨[Event.haltEv], by simp, Or.inl rfl⟩
    | UsbErrorRelay er => exact ⟨[Event.haltEv], by simp, Or.inl rfl⟩
    | SerializationError => exact ⟨[Event.haltEv], by simp, Or.inl rfl⟩

/-- C3: the loop halts (panics) iff `write_report` returned an error other
than `WouldBlock`/`Duplicate`, or — the write having been absorbed — `tick`
returned an error other than `WouldBlock`. All absorbed results proceed
silently to the next step. -/
theorem loop_halts_iff_fatal_write_or_tick (env : Env) :
    (iteration env).2 = true ↔
      ((∃ e, env.writeResult = Except.error e ∧
          e ≠ UsbHidError.WouldBlock ∧ e ≠ UsbHidError.Duplicate) ∨
       ((∀ e, env.writeResult = Except.error e →
           e = UsbHidError.WouldBlock ∨ e = UsbHidError.Duplicate) ∧
        ∃ e, env.tickResult = Except.error e ∧ e ≠ UsbHidError.WouldBlock)) := by
  rw [iteration.eq_def]
  simp only [scan_eq_snapshot]
  cases hw : env.writeResult with
  | ok u => exact (tickSection_halted env _).trans (by simp)
  | error e =>
    cases e with
    | WouldBlock => exact (tickSection_halted env _).trans (by simp)
    | Duplicate => exact (tickSection_halted env _).trans (by simp)
    | UsbErrorRelay er => simp
    | SerializationError => simp

/-- C4: every iteration decomposes into phases in a fixed order: the complete
scan sweep (which samples all 36 positions), then the input wait and the
report submission, then — unless the write was fatal — the tick wait and the
maintenance tick call, then — unless the tick was fatal — the poll (followed
only by read events). `tickCall` and `pollEv` never occur in the scan
phase. -/
theorem loop_phase_order (env : Env) :
    (∀ l, l < 6 → ∀ c, c < 6 →
        Event.sampleColumn l c (env.matrix l c) ∈ scanTrace env.matrix) ∧
    Event.tickCall ∉ scanTrace env.matrix ∧
    (∀ b, Event.pollEv b ∉ scanTrace env.matrix) ∧
    ∃ rest, (iteration env).1 =
        scanTrace env.matrix ++
          [Event.waitInput, Event.writeReport (snapshot env.matrix)] ++ rest ∧
      (rest = [Event.haltEv] ∨
        ∃ rest2, rest = [Event.waitTick, Event.tickCall] ++ rest2 ∧
          (rest2 = [Event.haltEv] ∨ rest2 = [Event.pollEv false] ∨
            ∃ tail, rest2 = Event.pollEv true :: tail)) := by
  refine ⟨?_, ?_, ?_, ?_⟩
  · intro l hl c hc
    rw [scanTrace]
    apply List.mem_flatMap.mpr
    refine ⟨l, List.mem_range.mpr hl, ?_⟩
    have hcmem : Event.sampleColumn l c (env.matrix l c) ∈
        (List.range 6).map fun x => Event.sampleColumn l x (env.matrix l x) :=
      List.mem_map.mpr ⟨c, List.mem_range.mpr hc, rfl⟩
    simp [List.mem_append, hcmem]
  · simp [scanTrace]
  · intro b
    simp [scanTrace]
  · rw [iteration.eq_def]
    simp only [scan_eq_snapshot]
    cases hw : env.writeResult with
    | ok u =>
      obtain ⟨rest2, hshape, hcase⟩ := tickSection_shape env
        (scanTrace env.matrix ++
          [Event.waitInput, Event.writeReport (snapshot env.matrix)])
      exact ⟨[Event.waitTick, Event.tickCall] ++ rest2,
        by rw [hshape, List.append_assoc], Or.inr ⟨rest2, rfl, hcase⟩⟩
    | error e =>
      cases e with
      | WouldBlock =>
        obtain ⟨rest2, hshape, hcase⟩ := tickSection_shape env
          (scanTrace env.matrix ++
            [Event.waitInput, Event.writeReport (snapshot env.matrix)])
        exact ⟨[Event.waitTick, Event.tickCall] ++ rest2,
          by rw [hshape, List.append_assoc], Or.inr ⟨rest2, rfl, hcase⟩⟩
      | Duplicate =>
        obtain ⟨rest2, hshape, hcase⟩ := tickSection_shape env
          (scanTrace env.matrix ++
            [Event.waitInput, Event.writeReport (snapshot env.matrix)])
        exact ⟨[Event.waitTick, Event.tickCall] ++ rest2,
          by rw [hshape, List.append_assoc], Or.inr ⟨rest2, rfl, hcase⟩⟩
      | UsbErrorRelay er => exact ⟨[Event.haltEv], by simp, Or.inl rfl⟩
      | SerializationError => exact ⟨[Event.haltEv], by simp, Or.inl rfl⟩

theorem tickSection_read_log (env : Env) (pre : List Event) (e : UsbError)
    (ht : env.tickResult = Except.ok () ∨
      env.tickResult = Except.error UsbHidError.WouldBlock)
    (hp : env.pollResult = true)
    (hr : env.readResult = Except.error e)
    (he : e ≠ UsbError.WouldBlock) :
    (tickSection env pre).2 = false ∧
      Event.readErrLog e ∈ (tickSection env pre).1 := by
  have hpoll : ∀ q : List Event, (pollSection env q).2 = false ∧
      Event.readErrLog e ∈ (pollSection env q).1 := by
    intro q
    rw [pollSection, hp, hr]
    cases e <;> simp_all
  rw [tickSection]
  rcases ht with ht | ht <;> rw [ht] <;> exact hpoll _

/-- C7: when the inbound-report read after a successful poll fails with
anything other than `WouldBlock`, the error is only logged and the iteration
ends without halting. -/
theorem read_errors_nonfatal (env : Env) (e : UsbError)
    (hw : env.writeResult = Except.ok () ∨
      env.writeResult = Except.error UsbHidError.WouldBlock ∨
      env.writeResult = Except.error UsbHidError.Duplicate)
    (ht : env.tickResult = Except.ok () ∨
      env.tickResult = Except.error UsbHidError.WouldBlock)
    (hp : env.pollResult = true)
    (hr : env.readResult = Except.error e)
    (he : e ≠ UsbError.WouldBlock) :
    (iteration env).2 = false ∧ Event.readErrLog e ∈ (iteration env).1 := by
  rw [iteration.eq_def]
  simp only [scan_eq_snapshot]
  rcases hw with hw | hw | hw <;> rw [hw] <;>
    exact tickSection_read_log env _ e ht hp hr he

/-- An environment whose inbound read fails with a parse error. -/
def env1 : Env :=
  { matrix := fun _ _ => false
    writeResult := Except.ok ()
    tickResult := Except.ok ()
    pollResult := true
    readResult := Except.error UsbError.ParseError }

theorem read_errors_nonfatal_witness :
    (iteration env1).2 = false ∧
      Event.readErrLog UsbError.ParseError ∈ (iteration env1).1 :=
  read_errors_nonfatal env1 UsbError.ParseError (Or.inl rfl) (Or.inl rfl)
    rfl rfl (by decide)
